import Mathlib

/-!
Shallow embedding of the composition export pipeline of `src/Main.tsx`
(`handleExport` / `playNextSegment` / `handleBatchExport`) and of the preview
player of `src/components/SeamlessPlayer.tsx`, together with the shared data
model of `src/unnamed/part_000` (the `types` module).

Conventions used throughout:
* JS numbers are modelled as exact rationals (`ℚ`).  Elapsed time and media
  durations inside the export loop are modelled in 100 ms ticks (`ℕ`), the
  granularity of the loop's `timeCheckInterval` poll; the source stores
  seconds, so 1 source-second = 10 ticks.
* JS truthiness of an optional numeric / string field (`strokeWidth &&
  strokeColor` and the like) is modelled by `truthyQ` / `truthyS`.
* External media behaviour (whether a segment's source loads within the
  15 000 ms timeout, whether playback errors out) is an input of the model,
  one `SegEvent` per loop iteration.
* Text measurement (`ctx.measureText`) is an oracle parameter
  `measure : String → ℚ`.
-/

namespace MixApp

/-- Structure `OverlayConfig` from `src/unnamed/part_000`; optional fields become `Option`. -/
structure OverlayConfig where
  text : String
  x : ℚ
  y : ℚ
  fontSize : ℚ
  color : String
  strokeColor : Option String := none
  strokeWidth : Option ℚ := none
  shadowColor : Option String := none
  shadowBlur : Option ℚ := none
  bgColor : Option String := none
  bgPadding : Option ℚ := none
deriving DecidableEq, Repr

/-- Structure `VideoFile` from `src/unnamed/part_000`. -/
structure VideoFile where
  id : String
  name : String
  url : String
  type : String
  overlay : Option OverlayConfig := none
deriving DecidableEq, Repr

/-- Structure `BgmFile` from `src/unnamed/part_000`; `duration` in 100 ms ticks. -/
structure BgmFile where
  id : String
  name : String
  url : String
  duration : ℕ
deriving DecidableEq, Repr

/-- Structure `Composition` from `src/unnamed/part_000`. -/
structure Composition where
  id : String
  name : String
  segments : List VideoFile
  createdAt : ℕ
  aiTitle : Option String := none
  aiDescription : Option String := none
deriving DecidableEq, Repr

/-- JS truthiness of an optional number: present and nonzero. -/
def truthyQ : Option ℚ → Bool
  | none => false
  | some q => q != 0

/-- JS truthiness of an optional string: present and nonempty. -/
def truthyS : Option String → Bool
  | none => false
  | some s => s != ""

/-! ## Export-side overlay compositing (Main.tsx, draw loop lines 434–521)

The export canvas is created at a fixed 720 × 1280 (Main.tsx lines 356–357).
-/

/-- Canvas width of the export surface (`canvas.width = 720`). -/
def exportCanvasW : ℚ := 720

/-- Canvas height of the export surface (`canvas.height = 1280`). -/
def exportCanvasH : ℚ := 1280

/-- Shadow configured before the per-line text loop (Main.tsx lines 491–499):
active only when both `shadowBlur` and `shadowColor` are truthy, otherwise the
context shadow is explicitly reset to the inactive state (modelled `none`).
The pair is (shadowColor, shadowBlur). -/
def exportShadow (o : OverlayConfig) : Option (String × ℚ) :=
  if truthyQ o.shadowBlur && truthyS o.shadowColor then
    some (o.shadowColor.getD "", o.shadowBlur.getD 0)
  else none

/-- Guard of the per-line stroke draw (Main.tsx line 506):
`if (strokeWidth && strokeColor)`. -/
def exportStrokeActive (o : OverlayConfig) : Bool :=
  truthyQ o.strokeWidth && truthyS o.strokeColor

/-- One canvas drawing command issued by the overlay part of the export draw
loop.  Each command is stamped with the context shadow state in force when it
was issued. -/
inductive DrawOp where
  | rect (color : String) (x y w h : ℚ) (shadow : Option (String × ℚ))
  | strokeGlyphs (line : String) (x y width : ℚ) (color : String)
      (shadow : Option (String × ℚ))
  | fillGlyphs (line : String) (x y : ℚ) (color : String)
      (shadow : Option (String × ℚ))
deriving DecidableEq, Repr

/-- The measuring loop of Main.tsx lines 467–471: the running maximum of the
measured line widths, starting from 0 and replacing the maximum whenever a
strictly wider line is found. -/
def measuredMaxWidth (measure : String → ℚ) (lines : List String) : ℚ :=
  lines.foldl (fun acc l => if acc < measure l then measure l else acc) 0

/-- Line height of the export draw (Main.tsx line 464):
`lineHeight = fontSize * 1.2`.  The per-line vertical advance of the export
surface, and the per-line contribution to the background box height. -/
def exportLineHeight (o : OverlayConfig) : ℚ :=
  o.fontSize * (12 / 10 : ℚ)

/-- The per-line loop of Main.tsx lines 504–516: for each line, optionally a
stroked outline, then the filled glyphs, advancing `lineY` by `lineHeight`.
The configured shadow is in force for the whole loop. -/
def overlayLineOps (o : OverlayConfig) (shadow : Option (String × ℚ))
    (xPos lineHeight : ℚ) : List String → ℚ → List DrawOp
  | [], _ => []
  | line :: rest, lineY =>
      (if exportStrokeActive o then
        [DrawOp.strokeGlyphs line xPos lineY (o.strokeWidth.getD 0)
          (o.strokeColor.getD "") shadow]
      else []) ++
      [DrawOp.fillGlyphs line xPos lineY o.color shadow] ++
      overlayLineOps o shadow xPos lineHeight rest (lineY + lineHeight)

/-- The overlay part of the export draw loop (Main.tsx lines 453–519), as the
list of drawing commands it issues, in order.  `measure line` is
`ctx.measureText(line).width` at the configured font.

The background rectangle (lines 485–488) is issued before the shadow is
configured (lines 491–499), and the whole block is wrapped in
`ctx.save()` / `ctx.restore()` whose saved state has the canvas default
(inactive) shadow, so the rectangle carries shadow state `none`. -/
def drawOverlay (o : OverlayConfig) (measure : String → ℚ) (cw ch : ℚ) :
    List DrawOp :=
  let lines := o.text.splitOn "\n"
  let lineHeight := exportLineHeight o
  let maxWidth := measuredMaxWidth measure lines
  let pad := o.bgPadding.getD 0
  let boxWidth := maxWidth + pad * 2
  let totalHeight := (lines.length : ℚ) * lineHeight
  let boxHeight := totalHeight + pad * 2
  let xPos := o.x / 100 * cw
  let yPos := o.y / 100 * ch
  let boxX := xPos - boxWidth / 2
  let boxY := yPos - boxHeight / 2
  (if truthyS o.bgColor then
    [DrawOp.rect (o.bgColor.getD "") boxX boxY boxWidth boxHeight none]
  else []) ++
  overlayLineOps o (exportShadow o) xPos lineHeight lines (boxY + pad + lineHeight / 2)

/-- Is the command the background rectangle? -/
def isRectOp : DrawOp → Bool
  | .rect .. => true
  | _ => false

/-- Is the command a filled-glyphs draw? -/
def isFillOp : DrawOp → Bool
  | .fillGlyphs .. => true
  | _ => false

/-- The context shadow state stamped on the command. -/
def opShadow : DrawOp → Option (String × ℚ)
  | .rect _ _ _ _ _ s => s
  | .strokeGlyphs _ _ _ _ _ s => s
  | .fillGlyphs _ _ _ _ s => s

/-- The x-coordinate the command draws at. -/
def opX : DrawOp → ℚ
  | .rect _ x _ _ _ _ => x
  | .strokeGlyphs _ x _ _ _ _ => x
  | .fillGlyphs _ x _ _ _ => x

/-- Text commands tagged with whether they stroke (`true`) or fill
(`false`), and the line drawn; the background rectangle is dropped. -/
def glyphTag : DrawOp → Option (Bool × String)
  | .rect .. => none
  | .strokeGlyphs line _ _ _ _ _ => some (true, line)
  | .fillGlyphs line _ _ _ _ => some (false, line)

/-- The y-coordinate of a filled-glyphs command. -/
def fillY : DrawOp → Option ℚ
  | .fillGlyphs _ _ y _ _ => some y
  | _ => none

/-- Every command of the per-line text loop is a text command drawn at the
loop's fixed x-position, stamped with the configured shadow. -/
lemma overlayLineOps_shape (o : OverlayConfig) (shadow : Option (String × ℚ))
    (xPos lineHeight : ℚ) :
    ∀ (ls : List String) (y : ℚ), ∀ op ∈ overlayLineOps o shadow xPos lineHeight ls y,
      isRectOp op = false ∧ opShadow op = shadow ∧ opX op = xPos := by
  intro ls
  induction ls with
  | nil => intro y op hop; simp [overlayLineOps] at hop
  | cons line rest ih =>
      intro y op hop
      by_cases hs : exportStrokeActive o <;>
        simp only [overlayLineOps, hs, if_true, Bool.false_eq_true, if_false,
          List.append_assoc, List.mem_append, List.mem_singleton,
          List.not_mem_nil, false_or, or_false] at hop
      · rcases hop with rfl | rfl | hop
        · exact ⟨rfl, rfl, rfl⟩
        · exact ⟨rfl, rfl, rfl⟩
        · exact ih _ op hop
      · rcases hop with rfl | hop
        · exact ⟨rfl, rfl, rfl⟩
        · exact ih _ op hop

/-- The text commands of the per-line loop, in order: per line a stroke
(when the stroke guard is active) followed by the fill. -/
lemma overlayLineOps_glyphTag (o : OverlayConfig) (shadow : Option (String × ℚ))
    (xPos lineHeight : ℚ) :
    ∀ (ls : List String) (y : ℚ),
      (overlayLineOps o shadow xPos lineHeight ls y).filterMap glyphTag =
        ls.flatMap (fun l =>
          (if exportStrokeActive o then [(true, l)] else []) ++ [(false, l)]) := by
  intro ls
  induction ls with
  | nil => intro y; rfl
  | cons line rest ih =>
      intro y
      by_cases hs : exportStrokeActive o <;>
        simp [overlayLineOps, hs, List.filterMap_append, List.filterMap_cons,
          glyphTag, ih]

/-- The y-coordinates of the fills of the per-line loop: one per line,
starting at the loop's initial baseline and advancing by `lineHeight`. -/
lemma overlayLineOps_fillY (o : OverlayConfig) (shadow : Option (String × ℚ))
    (xPos lineHeight : ℚ) :
    ∀ (ls : List String) (y : ℚ),
      (overlayLineOps o shadow xPos lineHeight ls y).filterMap fillY =
        (List.range ls.length).map (fun i : ℕ => y + i * lineHeight) := by
  intro ls
  induction ls with
  | nil => intro y; rfl
  | cons line rest ih =>
      intro y
      have hfun : ((fun i : ℕ => y + i * lineHeight) ∘ Nat.succ) =
          fun i : ℕ => (y + lineHeight) + i * lineHeight := by
        funext i
        simp only [Function.comp_apply]
        push_cast
        ring
      by_cases hs : exportStrokeActive o <;>
        simp only [overlayLineOps, hs, if_true, if_false, List.nil_append,
          List.filterMap_append, List.filterMap_cons, fillY,
          List.filterMap_nil, List.length_cons, List.range_succ_eq_map,
          List.map_cons, List.map_map, hfun, ih] <;>
        simp [ih]

/-- Unfolding of `drawOverlay`: the conditional background rectangle followed
by the per-line text loop, with every derived quantity spelled out. -/
lemma drawOverlay_decomp (o : OverlayConfig) (measure : String → ℚ)
    (cw ch : ℚ) :
    drawOverlay o measure cw ch =
      (if truthyS o.bgColor then
        [DrawOp.rect (o.bgColor.getD "")
          (o.x / 100 * cw -
            (measuredMaxWidth measure (o.text.splitOn "\n") +
              o.bgPadding.getD 0 * 2) / 2)
          (o.y / 100 * ch -
            (((o.text.splitOn "\n").length : ℚ) * (o.fontSize * (12 / 10 : ℚ)) +
              o.bgPadding.getD 0 * 2) / 2)
          (measuredMaxWidth measure (o.text.splitOn "\n") +
            o.bgPadding.getD 0 * 2)
          (((o.text.splitOn "\n").length : ℚ) * (o.fontSize * (12 / 10 : ℚ)) +
            o.bgPadding.getD 0 * 2)
          none]
      else []) ++
      overlayLineOps o (exportShadow o) (o.x / 100 * cw)
        (o.fontSize * (12 / 10 : ℚ)) (o.text.splitOn "\n")
        ((o.y / 100 * ch -
            (((o.text.splitOn "\n").length : ℚ) * (o.fontSize * (12 / 10 : ℚ)) +
              o.bgPadding.getD 0 * 2) / 2) +
          o.bgPadding.getD 0 + (o.fontSize * (12 / 10 : ℚ)) / 2) := rfl

/-! ## Preview-side overlay rendering (SeamlessPlayer.tsx lines 157–176)

The same inline style is also produced by the overlay-editor preview in
Main.tsx lines 873–889.  `cqw` is 1 % of the container width, so a value of
`(v / 720) * 100` cqw occupies the fraction `v / 720` of the surface width.
-/

/-- The inline style computed for the preview overlay `div`, together with
the line-height factor the `div`'s `leading-tight` class imposes on its text
block. -/
structure PreviewStyle where
  leftPct : ℚ
  topPct : ℚ
  color : String
  fontSizeCqw : ℚ
  lineHeightFactor : ℚ
  stroke : Option (ℚ × Option String)
  textShadow : Option (ℚ × String)
  backgroundColor : String
  paddingCqw : ℚ
deriving DecidableEq, Repr

/-- SeamlessPlayer.tsx lines 158–172: the style record of the overlay `div`.
`stroke` carries the raw interpolated `strokeColor` (possibly absent, in which
case the source interpolates the undefined value into the CSS string);
`textShadow` defaults its colour with `shadowColor || 'black'` (JS
truthiness: an absent or empty colour falls back to black).
`lineHeightFactor` is the `leading-tight` class of the `div` (line 159; the
editor preview of Main.tsx line 874 carries the same class), i.e. CSS
`line-height: 1.25`: the preview stacks its lines at `fontSize × 1.25`. -/
def previewStyle (o : OverlayConfig) : PreviewStyle where
  leftPct := o.x
  topPct := o.y
  color := o.color
  fontSizeCqw := o.fontSize / 720 * 100
  lineHeightFactor := 125 / 100
  stroke :=
    if truthyQ o.strokeWidth then
      some (o.strokeWidth.getD 0 / 720 * 100, o.strokeColor)
    else none
  textShadow :=
    if truthyQ o.shadowBlur then
      some (o.shadowBlur.getD 0 / 720 * 100,
        if truthyS o.shadowColor then o.shadowColor.getD "" else "black")
    else none
  backgroundColor := if truthyS o.bgColor then o.bgColor.getD "" else "transparent"
  paddingCqw := if truthyQ o.bgPadding then o.bgPadding.getD 0 / 720 * 100 else 0

/-! ## Preview playback state machine (SeamlessPlayer.tsx) -/

/-- The three state variables of the preview player; slot A is player id 1,
slot B is player id 2 (`videoRef1` / `videoRef2`). -/
structure PlayerState where
  currentIndex : ℕ
  activePlayerId : ℕ
  isPlaying : Bool
deriving DecidableEq, Repr

/-- Handler `handleVideoEnded` (SeamlessPlayer.tsx lines 63–103) as a transition on
the player state, for a composition of `n` segments and a background track
attached iff `bgmAttachedFlag`.  The preloading of the inactive slot
(lines 91–102) touches only the video elements' `src`, not these state
variables. -/
def handleVideoEnded (bgmAttachedFlag : Bool) (n : ℕ) (st : PlayerState) :
    PlayerState :=
  let nextIndex := st.currentIndex + 1
  if bgmAttachedFlag then
    let nextIndex' := if n ≤ nextIndex then 0 else nextIndex
    { currentIndex := nextIndex'
      activePlayerId := if st.activePlayerId = 1 then 2 else 1
      isPlaying := st.isPlaying }
  else
    if n ≤ nextIndex then
      { currentIndex := 0, activePlayerId := 1, isPlaying := false }
    else
      { currentIndex := nextIndex
        activePlayerId := if st.activePlayerId = 1 then 2 else 1
        isPlaying := st.isPlaying }

/-- Attributes of the two video elements rendered by the preview player. -/
structure RenderedPlayer where
  slot1Muted : Bool
  slot2Muted : Bool
  bgmAudioPresent : Bool
deriving DecidableEq, Repr

/-- SeamlessPlayer.tsx render: with no segments an empty placeholder is
returned (lines 124–130, no video elements); otherwise both slots carry
`muted={!!bgm}` (lines 145 and 154) and the `audio` element is rendered iff a
track is attached (line 137). -/
def seamlessPlayerRender (segments : List VideoFile) (bgm : Option BgmFile) :
    Option RenderedPlayer :=
  if segments.isEmpty then none
  else some
    { slot1Muted := bgm.isSome
      slot2Muted := bgm.isSome
      bgmAudioPresent := bgm.isSome }

/-! ## Export-request guards (Main.tsx) -/

/-- State `batchStatus` (Main.tsx lines 49–51). -/
structure BatchStatus where
  current : ℕ
  total : ℕ
  active : Bool
deriving DecidableEq, Repr

/-- The slice of `Main`'s state that the export-request guards read and the
synchronous prefix of a request mutates. -/
structure AppState where
  isExporting : Bool
  exportProgress : ℤ
  batchStatus : BatchStatus
  selectedCount : ℕ
deriving DecidableEq, Repr

/-- Attribute `disabled` of the single-export button (Main.tsx line 1128):
`isExporting || batchStatus.active`. -/
def exportButtonDisabled (s : AppState) : Bool :=
  s.isExporting || s.batchStatus.active

/-- Attribute `disabled` of the batch-export button (Main.tsx line 1201):
`isExporting || batchStatus.active || selectedIds.size === 0`. -/
def batchButtonDisabled (s : AppState) : Bool :=
  s.isExporting || s.batchStatus.active || decide (s.selectedCount = 0)

/-- A user request for a single export: the click is delivered only when the
button is enabled, and `handleExport` (lines 342–346, `isBatch = false`)
additionally returns at once if `isExporting` is set, before any state write.
Returns whether a job was started, with the state after the synchronous
prefix of the handler. -/
def requestSingleExport (s : AppState) : Bool × AppState :=
  if exportButtonDisabled s then (false, s)
  else if s.isExporting then (false, s)
  else (true, { s with isExporting := true, exportProgress := 0 })

/-- A user request for a batch export: the click is delivered only when the
button is enabled, and `handleBatchExport` (lines 679–690) re-checks the empty
selection and the `isExporting || batchStatus.active` guard before activating
the batch. -/
def requestBatchExport (s : AppState) : Bool × AppState :=
  if batchButtonDisabled s then (false, s)
  else if s.selectedCount = 0 then (false, s)
  else if s.isExporting || s.batchStatus.active then (false, s)
  else (true, { s with batchStatus := ⟨0, s.selectedCount, true⟩ })

/-! ## The export loop (Main.tsx, `handleExport` lines 342–677)

One `SegEvent` per loop iteration describes how the host media element
behaved for that segment: the 15 000 ms load timeout fired (lines 553–559),
playback failed (`play().catch`, lines 580–585, or `video.onerror`,
lines 615–621), or the segment loaded and played (lines 561–613).

Time is counted in 100 ms ticks; all durations are whole ticks, so the
`timeCheckInterval` poll of lines 588–597 fires exactly at the first tick at
which `accumulatedTime + video.currentTime` reaches `totalDuration`.
-/

/-- Host-side outcome of one segment load/play attempt. -/
inductive SegEvent where
  | timeout
  | playError
  | plays
deriving DecidableEq, Repr

/-- Outcome of the background-track setup (Main.tsx lines 368–384): no track
configured, track decoded successfully, or `fetch`/`decodeAudioData` threw. -/
inductive BgmSetup where
  | noTrack
  | decoded (duration : ℕ)
  | decodeFailed
deriving DecidableEq, Repr

/-- Variable `totalDuration` as assigned in Main.tsx lines 370–384, in 100 ms ticks:
`999999` s without a track, the track's known duration on success, and the
`9999` s sentinel when decoding fails. -/
def totalDuration : BgmSetup → ℕ
  | .noTrack => 9999990
  | .decoded d => d
  | .decodeFailed => 99990

/-- Truthiness of the `bgm` state inside the loop (`if (bgm …)`): the track
object stays attached even when decoding failed. -/
def bgmAttached : BgmSetup → Bool
  | .noTrack => false
  | _ => true

/-- Function `Math.round`: round half toward positive infinity. -/
def jsRound (q : ℚ) : ℤ := ⌊q + 1 / 2⌋

/-- One segment actually handed to the recorder: which composition index it
was, how many ticks of it played, and whether the poll force-stopped it. -/
structure PlayedSeg where
  segIdx : ℕ
  time : ℕ
  cut : Bool
deriving DecidableEq, Repr

/-- The mutable context of `playNextSegment`: `currentSegmentIndex`,
`accumulatedTime`, the ticks captured while the recorder was recording, the
segments played, and every value passed to `setExportProgress`, in order. -/
structure ExportState where
  idx : ℕ
  acc : ℕ
  recorded : ℕ
  played : List PlayedSeg
  progressLog : List ℤ
deriving DecidableEq, Repr

/-- The progress computed at the head of `playNextSegment`
(Main.tsx lines 538–544) for a composition of `n` segments. -/
def progressAt (cfg : BgmSetup) (n : ℕ) (st : ExportState) : ℤ :=
  if bgmAttached cfg then
    jsRound (min 100 ((st.acc : ℚ) / (totalDuration cfg : ℚ) * 100))
  else
    jsRound (min 100 ((st.idx : ℚ) / (n : ℚ) * 100))

/-- The two early-return guards of `playNextSegment` (Main.tsx lines 525–533). -/
def exportFinished (cfg : BgmSetup) (n : ℕ) (st : ExportState) : Bool :=
  (bgmAttached cfg && decide (totalDuration cfg ≤ st.acc)) ||
  (!bgmAttached cfg && decide (n ≤ st.idx))

/-- One iteration of `playNextSegment` past its guards, for segment natural
durations `segs`: emit progress, fetch `segments[idx % segments.length]`, and
handle the host event.  On a timeout or a playback error the index advances
with no time accounted (lines 553–559, 580–585, 615–621).  When the segment
plays, the poll force-stops it at the tick where cumulative elapsed time
reaches `totalDuration` if that happens before its natural end; either way the
`ended` handler then accounts `video.duration` — the segment's full natural
duration — into `accumulatedTime` and advances the index (lines 599–613). -/
def stepSegment (cfg : BgmSetup) (segs : List ℕ) (ev : SegEvent)
    (st : ExportState) : ExportState :=
  let st' := { st with progressLog := st.progressLog ++ [progressAt cfg segs.length st] }
  match ev with
  | .timeout => { st' with idx := st'.idx + 1 }
  | .playError => { st' with idx := st'.idx + 1 }
  | .plays =>
      let nat := segs.getD (st'.idx % segs.length) 0
      let cutoff := bgmAttached cfg && decide (totalDuration cfg < st'.acc + nat)
      let playedTime := if cutoff then totalDuration cfg - st'.acc else nat
      { st' with
        idx := st'.idx + 1
        acc := st'.acc + nat
        recorded := st'.recorded + playedTime
        played := st'.played ++ [⟨st'.idx % segs.length, playedTime, cutoff⟩] }

/-- The recursion of `playNextSegment`, fuelled; `iter` counts iterations so
that `events iter` is the host event of this iteration.  Returns `none` when
the fuel runs out before the guards fire. -/
def runLoop (cfg : BgmSetup) (segs : List ℕ) (events : ℕ → SegEvent) :
    ℕ → ℕ → ExportState → Option ExportState
  | 0, _, _ => none
  | fuel + 1, iter, st =>
      if exportFinished cfg segs.length st then some st
      else runLoop cfg segs events fuel (iter + 1) (stepSegment cfg segs (events iter) st)

/-- A whole export run: `setExportProgress(0)` at Main.tsx line 346, then the
loop from index 0 with nothing accumulated. -/
def runExport (cfg : BgmSetup) (segs : List ℕ) (events : ℕ → SegEvent)
    (fuel : ℕ) : Option ExportState :=
  runLoop cfg segs events fuel 0 ⟨0, 0, 0, [], [0]⟩

/-- Finalization (Main.tsx lines 633–640): after stopping the recorder, a job
that captured no data at all fails with the explicit error of line 639;
otherwise the container is assembled from the captured chunks.  Captured
chunks are modelled by the total recorded playback time. -/
def finalizeExport (st : ExportState) : Except String ExportState :=
  if st.recorded = 0 then .error "No video data recorded (chunks empty)"
  else .ok st

/-! ## Generic lemmas about the loop -/

/-- Every branch of one iteration advances `currentSegmentIndex` by one. -/
lemma stepSegment_idx (cfg : BgmSetup) (segs : List ℕ) (ev : SegEvent)
    (st : ExportState) : (stepSegment cfg segs ev st).idx = st.idx + 1 := by
  cases ev <;> rfl

/-- Every branch of one iteration emits exactly the progress of its entry
state. -/
lemma stepSegment_log (cfg : BgmSetup) (segs : List ℕ) (ev : SegEvent)
    (st : ExportState) : (stepSegment cfg segs ev st).progressLog =
      st.progressLog ++ [progressAt cfg segs.length st] := by
  cases ev <;> rfl

/-- The loop body reads the track configuration only through `bgmAttached`
and `totalDuration`. -/
lemma stepSegment_congr (c₁ c₂ : BgmSetup) (h₁ : bgmAttached c₁ = bgmAttached c₂)
    (h₂ : totalDuration c₁ = totalDuration c₂) (segs : List ℕ) (ev : SegEvent)
    (st : ExportState) : stepSegment c₁ segs ev st = stepSegment c₂ segs ev st := by
  cases ev <;> simp [stepSegment, progressAt, h₁, h₂]

/-- The loop guards read the track configuration only through `bgmAttached`
and `totalDuration`. -/
lemma exportFinished_congr (c₁ c₂ : BgmSetup) (h₁ : bgmAttached c₁ = bgmAttached c₂)
    (h₂ : totalDuration c₁ = totalDuration c₂) (n : ℕ) (st : ExportState) :
    exportFinished c₁ n st = exportFinished c₂ n st := by
  simp [exportFinished, h₁, h₂]

/-- The whole loop reads the track configuration only through `bgmAttached`
and `totalDuration`. -/
lemma runLoop_congr (c₁ c₂ : BgmSetup) (h₁ : bgmAttached c₁ = bgmAttached c₂)
    (h₂ : totalDuration c₁ = totalDuration c₂) (segs : List ℕ)
    (events : ℕ → SegEvent) :
    ∀ (fuel iter : ℕ) (st : ExportState),
      runLoop c₁ segs events fuel iter st = runLoop c₂ segs events fuel iter st := by
  intro fuel
  induction fuel with
  | zero => intro iter st; rfl
  | succ fuel ih =>
      intro iter st
      rw [runLoop, runLoop, exportFinished_congr c₁ c₂ h₁ h₂,
        stepSegment_congr c₁ c₂ h₁ h₂]
      split <;> simp [ih]

/-! ## Claim C2 -/

/-- C2 counterexample.  Background track attached but its decode failed;
one segment of 6000 s, always loading and playing fine.  The claim says the
fallback disables the cutoff policy entirely, each segment plays to natural
completion and each is played at most once, as if no track were attached.
In this run segment 0 is played twice (it loops), and its second play is
force-cut by the poll — contradicting all three parts. -/
theorem C2_counterexample :
    (runExport .decodeFailed [60000] (fun _ => .plays) 3).map
        (fun st => st.played.map PlayedSeg.segIdx) = some [0, 0] ∧
    (runExport .decodeFailed [60000] (fun _ => .plays) 3).map
        (fun st => st.played.map PlayedSeg.cut) = some [false, true] := by
  constructor <;> decide

/-- C2 amended: when the background track fails to decode, the export loop
behaves exactly as if a track of 9999 s (the finite sentinel of Main.tsx
line 380) had decoded — segments still loop cyclically and the poll cutoff
still applies against the sentinel; the failure is non-fatal (the loop runs on
and completes like any track-bound run). -/
theorem C2_amended (segs : List ℕ) (events : ℕ → SegEvent) (fuel : ℕ) :
    runExport .decodeFailed segs events fuel =
      runExport (.decoded 99990) segs events fuel :=
  runLoop_congr .decodeFailed (.decoded 99990) rfl rfl segs events fuel 0 _

/-! ## Claim C1 -/

/-- C1 counterexample.  Track of 20 s decoded, one segment of natural
duration 30 s that loads and plays.  The poll force-stops the segment at
cumulative time 20 s, but the `ended` handler then accounts
`video.duration` — the full 30 s — into `accumulatedTime`, so the accounted
elapsed time of the loop ends at 300 ticks, exceeding `D = 200`. -/
theorem C1_counterexample :
    (runExport (.decoded 200) [300] (fun _ => .plays) 3).map ExportState.acc =
      some 300 ∧ ¬(300 ≤ 200) := by
  constructor <;> decide

/-- Invariant of the loop against a successfully decoded track of duration
`D`: recorded playback never exceeds `D`; while the accounted time is still
below `D` it coincides with recorded playback and nothing was cut; any cut
segment was stopped with cumulative recorded time exactly `D`, before its
natural end; and a cut can sit only at the end of the played list. -/
def AccInv (D : ℕ) (segs : List ℕ) (st : ExportState) : Prop :=
  st.recorded ≤ D ∧
  (st.acc < D → st.recorded = st.acc ∧ ∀ p ∈ st.played, p.cut = false) ∧
  (∀ p ∈ st.played, p.cut = true →
    st.recorded = D ∧ p.time < segs.getD p.segIdx 0) ∧
  (∀ p ∈ st.played.dropLast, p.cut = false)

lemma stepSegment_AccInv (D : ℕ) (segs : List ℕ) (ev : SegEvent)
    (st : ExportState)
    (hrun : exportFinished (.decoded D) segs.length st = false)
    (hinv : AccInv D segs st) :
    AccInv D segs (stepSegment (.decoded D) segs ev st) := by
  have hacc : st.acc < D := by
    simpa [exportFinished, bgmAttached, totalDuration] using hrun
  obtain ⟨h1, h2, h3, h4⟩ := hinv
  obtain ⟨hra, hcf⟩ := h2 hacc
  cases ev
  case timeout => exact ⟨h1, h2, h3, h4⟩
  case playError => exact ⟨h1, h2, h3, h4⟩
  case plays =>
    by_cases hc : D < st.acc + segs.getD (st.idx % segs.length) 0
    · have hstep : stepSegment (.decoded D) segs .plays st =
          { idx := st.idx + 1, acc := st.acc + segs.getD (st.idx % segs.length) 0,
            recorded := st.recorded + (D - st.acc),
            played := st.played ++ [⟨st.idx % segs.length, D - st.acc, true⟩],
            progressLog := st.progressLog ++
              [progressAt (.decoded D) segs.length st] } := by
        have hc' : D < st.acc + segs[st.idx % segs.length]?.getD 0 := by
          rwa [← List.getD_eq_getElem?_getD]
        simp [stepSegment, bgmAttached, totalDuration, hc']
      rw [hstep]
      refine ⟨?_, ?_, ?_, ?_⟩ <;> dsimp only
      · omega
      · intro h; omega
      · intro p hp
        rcases List.mem_append.mp hp with hp | hp
        · intro hcut; exact absurd (hcf p hp) (by simp [hcut])
        · simp only [List.mem_singleton] at hp
          subst hp
          intro _
          exact ⟨by omega, by dsimp only; omega⟩
      · rw [List.dropLast_concat]
        exact hcf
    · have hstep : stepSegment (.decoded D) segs .plays st =
          { idx := st.idx + 1, acc := st.acc + segs.getD (st.idx % segs.length) 0,
            recorded := st.recorded + segs.getD (st.idx % segs.length) 0,
            played := st.played ++
              [⟨st.idx % segs.length, segs.getD (st.idx % segs.length) 0, false⟩],
            progressLog := st.progressLog ++
              [progressAt (.decoded D) segs.length st] } := by
        have hc' : ¬ D < st.acc + segs[st.idx % segs.length]?.getD 0 := by
          rwa [← List.getD_eq_getElem?_getD]
        simp [stepSegment, bgmAttached, totalDuration, hc']
      rw [hstep]
      refine ⟨?_, ?_, ?_, ?_⟩ <;> dsimp only
      · omega
      · intro _
        refine ⟨by omega, ?_⟩
        intro p hp
        rcases List.mem_append.mp hp with hp | hp
        · exact hcf p hp
        · simp only [List.mem_singleton] at hp; subst hp; rfl
      · intro p hp
        rcases List.mem_append.mp hp with hp | hp
        · intro hcut; exact absurd (hcf p hp) (by simp [hcut])
        · simp only [List.mem_singleton] at hp; subst hp
          intro hcut; exact absurd hcut (by simp)
      · rw [List.dropLast_concat]
        exact hcf

lemma runLoop_AccInv (D : ℕ) (segs : List ℕ) (events : ℕ → SegEvent) :
    ∀ (fuel iter : ℕ) (st st' : ExportState), AccInv D segs st →
      runLoop (.decoded D) segs events fuel iter st = some st' →
      AccInv D segs st' := by
  intro fuel
  induction fuel with
  | zero => intro iter st st' _ h; simp [runLoop] at h
  | succ fuel ih =>
      intro iter st st' hinv h
      rw [runLoop] at h
      split at h
      · cases h; exact hinv
      · exact ih _ _ _ (stepSegment_AccInv D segs _ st (by
          rename_i hf; simpa using hf) hinv) h

/-- C1 amended: with a decoded track of duration `D`, the *recorded* playback
time never exceeds `D`; a force-cut segment is stopped exactly when cumulative
recorded time reaches `D`, strictly before its own natural end; and only the
last played segment can be cut.  The *accounted* accumulator, however, adds
the cut segment's full natural duration and may therefore exceed `D`
(see the counterexample). -/
theorem C1_amended (D : ℕ) (segs : List ℕ) (events : ℕ → SegEvent) (fuel : ℕ)
    (st : ExportState) (h : runExport (.decoded D) segs events fuel = some st) :
    st.recorded ≤ D ∧
    (∀ p ∈ st.played, p.cut = true →
      st.recorded = D ∧ p.time < segs.getD p.segIdx 0) ∧
    (∀ p ∈ st.played.dropLast, p.cut = false) := by
  have h0 : AccInv D segs ⟨0, 0, 0, [], [0]⟩ := by
    refine ⟨Nat.zero_le _, fun _ => ⟨rfl, by simp⟩, by simp, by simp⟩
  obtain ⟨h1, _, h3, h4⟩ := runLoop_AccInv D segs events fuel 0 _ st h0 h
  exact ⟨h1, h3, h4⟩

/-- C1 witness: in the 20 s-track, 30 s-segment run the recorded time is
exactly the track duration and the (single, last) played segment was cut
before its natural end. -/
theorem C1_witness :
    (200 : ℕ) ≤ 200 ∧
    ((⟨0, 200, true⟩ : PlayedSeg).cut = true →
      (200 : ℕ) = 200 ∧ (⟨0, 200, true⟩ : PlayedSeg).time < [300].getD 0 0) := by
  have h := C1_amended 200 [300] (fun _ => .plays) 3
    ⟨1, 300, 200, [⟨0, 200, true⟩], [0, 0]⟩ (by
      norm_num [runExport, runLoop, stepSegment, progressAt, exportFinished,
        jsRound, totalDuration, bgmAttached])
  exact ⟨h.1, fun hc => (h.2.1 ⟨0, 200, true⟩ (by simp) hc)⟩

/-! ## Claim C3 -/

/-- C3: while any export pipeline is active — a single export
(`isExporting`) or a batch (`batchStatus.active`) — a new export request of
either kind is rejected with the app state, in particular `exportProgress`
and `batchStatus`, left exactly as it was. -/
theorem C3_theorem (s : AppState)
    (h : s.isExporting = true ∨ s.batchStatus.active = true) :
    requestSingleExport s = (false, s) ∧ requestBatchExport s = (false, s) := by
  rcases h with h | h <;>
    simp [requestSingleExport, requestBatchExport, exportButtonDisabled,
      batchButtonDisabled, h]

/-- C3 witness: a state with a single export in flight rejects both kinds of
request unchanged. -/
theorem C3_witness :
    requestSingleExport ⟨true, 42, ⟨0, 0, false⟩, 3⟩ = (false, ⟨true, 42, ⟨0, 0, false⟩, 3⟩) ∧
    requestBatchExport ⟨true, 42, ⟨0, 0, false⟩, 3⟩ = (false, ⟨true, 42, ⟨0, 0, false⟩, 3⟩) :=
  C3_theorem ⟨true, 42, ⟨0, 0, false⟩, 3⟩ (Or.inl rfl)

/-! ## Claim C4 -/

/-- C4 counterexample, refuting two parts of the claim at concrete overlays.

First, defaulting: with `shadowBlur = 10` but no `shadowColor`, the preview
path defaults the colour with `shadowColor || 'black'` and renders a black
shadow, while the export path requires both fields truthy and renders no
shadow at all — the defaulting of `shadowColor` is not identical.

Second, the bounding box: for `fontSize = 40` the preview stacks each line at
`lineHeightFactor × fontSize = 1.25 × 40 = 50` units (the `leading-tight`
class), while the export advances and sizes its box by
`exportLineHeight = fontSize × 1.2 = 48` units (box height
`numLines × exportLineHeight + 2·padding`, see `drawOverlay_decomp`), so the
two bounding boxes are not identical either. -/
theorem C4_counterexample :
    ((previewStyle
        ⟨"t", 50, 50, 40, "#fff", none, none, none, some 10, none, none⟩).textShadow.isSome ≠
      (exportShadow
        ⟨"t", 50, 50, 40, "#fff", none, none, none, some 10, none, none⟩).isSome) ∧
    ((previewStyle
        ⟨"t", 50, 50, 40, "#fff", none, none, none, some 10, none, none⟩).lineHeightFactor *
        (⟨"t", 50, 50, 40, "#fff", none, none, none, some 10, none,
          none⟩ : OverlayConfig).fontSize = 50 ∧
      exportLineHeight
        ⟨"t", 50, 50, 40, "#fff", none, none, none, some 10, none, none⟩ = 48 ∧
      (50 : ℚ) ≠ 48) := by
  refine ⟨?_, ?_, ?_, ?_⟩
  · simp [previewStyle, exportShadow, truthyQ, truthyS]
  · norm_num [previewStyle]
  · norm_num [exportLineHeight]
  · norm_num

lemma getD_eq_zero_of_not_truthyQ {x : Option ℚ} (h : truthyQ x = false) :
    x.getD 0 = 0 := by
  cases x with
  | none => rfl
  | some q =>
      simp only [truthyQ, bne_eq_false_iff_eq] at h
      simpa using h

/-- The comparable part of preview/export overlay parity: the relative size
of font, stroke width, shadow blur and padding (as fractions of the surface
width), the activation conditions and colours of stroke and shadow, the
background colour, the x-position of every text command on the export
surface, and — via the drawn background rectangle — both coordinates of the
bounding-box centre.  Box *dimensions* are deliberately absent: the two
paths disagree on them (see the counterexample). -/
def OverlayParity (o : OverlayConfig) : Prop :=
  ((previewStyle o).fontSizeCqw / 100 = o.fontSize / exportCanvasW) ∧
  ((previewStyle o).stroke.isSome = exportStrokeActive o) ∧
  ((previewStyle o).stroke.map (fun p => p.1 / 100) =
    if exportStrokeActive o then some (o.strokeWidth.getD 0 / exportCanvasW)
    else none) ∧
  ((previewStyle o).stroke.map (fun p => p.2) =
    if exportStrokeActive o then some (some (o.strokeColor.getD "")) else none) ∧
  ((previewStyle o).textShadow.isSome = (exportShadow o).isSome) ∧
  ((previewStyle o).textShadow.map (fun p => p.1 / 100) =
    (exportShadow o).map (fun p => p.2 / exportCanvasW)) ∧
  ((previewStyle o).textShadow.map (fun p => p.2) =
    (exportShadow o).map (fun p => p.1)) ∧
  ((previewStyle o).paddingCqw / 100 = o.bgPadding.getD 0 / exportCanvasW) ∧
  ((truthyS o.bgColor = true →
      (previewStyle o).backgroundColor = o.bgColor.getD "") ∧
    (truthyS o.bgColor = false →
      (previewStyle o).backgroundColor = "transparent")) ∧
  (∀ (measure : String → ℚ) (op : DrawOp),
    op ∈ drawOverlay o measure exportCanvasW exportCanvasH →
    isRectOp op = false →
    opX op = (previewStyle o).leftPct / 100 * exportCanvasW) ∧
  (∀ (measure : String → ℚ) (c : String) (x y w h : ℚ)
      (s : Option (String × ℚ)),
    DrawOp.rect c x y w h s ∈ drawOverlay o measure exportCanvasW exportCanvasH →
    x + w / 2 = (previewStyle o).leftPct / 100 * exportCanvasW ∧
    y + h / 2 = (previewStyle o).topPct / 100 * exportCanvasH)

/-- C4 amended: overlay rendering is a pure function of the configuration and
the surface, and for every configuration whose optional `strokeColor` and
`shadowColor` are present and nonempty — the only configurations the app's
editor can produce — the preview and export paths agree on the relative
scaling of fontSize, strokeWidth, shadowBlur and padding, on the activation
conditions and colours of stroke and shadow, on the background colour, and on
both coordinates of the bounding-box centre, `(x %, y %)` of the surface.
Two parts of the original claim fail (see the counterexample): when
`shadowColor` is absent the defaulting differs (export drops the shadow,
preview defaults it to black), and the bounding boxes are not identical —
the preview stacks lines at `fontSize × 1.25` (`leading-tight`) while the
export uses `fontSize × 1.2`, so the box heights disagree. -/
theorem C4_amended (o : OverlayConfig) (sc shc : String)
    (hc : o.strokeColor = some sc) (hsc : sc ≠ "")
    (hsh : o.shadowColor = some shc) (hshc : shc ≠ "") :
    OverlayParity o := by
  have hsct : truthyS o.strokeColor = true := by
    rw [hc]; simpa [truthyS] using hsc
  have hsht' : truthyS (some shc) = true := by
    simpa [truthyS] using hshc
  have hsht : truthyS o.shadowColor = true := by rw [hsh]; exact hsht'
  have hstroke : exportStrokeActive o = truthyQ o.strokeWidth := by
    rw [exportStrokeActive, hsct, Bool.and_true]
  refine ⟨?_, ?_, ?_, ?_, ?_, ?_, ?_, ?_, ⟨?_, ?_⟩, ?_, ?_⟩
  · simp only [previewStyle, exportCanvasW]
    ring
  · by_cases hq : truthyQ o.strokeWidth <;>
      simp [previewStyle, hstroke, hq]
  · by_cases hq : truthyQ o.strokeWidth <;>
      simp [previewStyle, hstroke, hq, exportCanvasW]
  · by_cases hq : truthyQ o.strokeWidth <;>
      simp [previewStyle, hstroke, hq, hc]
  · by_cases hq : truthyQ o.shadowBlur <;>
      simp [previewStyle, exportShadow, hsht, hsht', hsh, hq]
  · by_cases hq : truthyQ o.shadowBlur <;>
      simp [previewStyle, exportShadow, hsht, hsht', hsh, hq, exportCanvasW]
  · by_cases hq : truthyQ o.shadowBlur <;>
      simp [previewStyle, exportShadow, hsht, hsht', hq, hsh]
  · by_cases hq : truthyQ o.bgPadding
    · simp only [previewStyle, hq, if_true, exportCanvasW]
      ring
    · rw [getD_eq_zero_of_not_truthyQ (by simpa using hq)]
      simp [previewStyle, hq]
  · intro hb; simp [previewStyle, hb]
  · intro hb; simp [previewStyle, hb]
  · intro measure op hop hrect
    rw [drawOverlay_decomp] at hop
    rcases List.mem_append.mp hop with hop | hop
    · by_cases hb : truthyS o.bgColor <;> simp [hb] at hop
      subst hop
      simp [isRectOp] at hrect
    · have := (overlayLineOps_shape o (exportShadow o) _ _ _ _ op hop).2.2
      rw [this]
      simp [previewStyle]
  · intro measure c x y w h s hop
    rw [drawOverlay_decomp] at hop
    rcases List.mem_append.mp hop with hop | hop
    · by_cases hb : truthyS o.bgColor <;>
        simp only [hb, Bool.false_eq_true, if_true, if_false,
          List.mem_singleton, List.not_mem_nil, DrawOp.rect.injEq] at hop
      obtain ⟨-, hx, hy, hw, hh, -⟩ := hop
      subst hx hy hw hh
      constructor <;> simp only [previewStyle, exportCanvasW, exportCanvasH] <;>
        ring
    · exact absurd (overlayLineOps_shape o (exportShadow o) _ _ _ _ _ hop).1
        (by simp [isRectOp])

/-- C4 witness: a fully populated overlay configuration satisfies the
preview/export parity. -/
theorem C4_witness :
    OverlayParity ⟨"t", 50, 50, 40, "#fff", some "#000", some 5, some "#111",
      some 10, some "#222", some 20⟩ :=
  C4_amended _ "#000" "#111" rfl (by decide) rfl (by decide)

/-! ## Claim C5 -/

lemma jsRound_nonneg (q : ℚ) (h : 0 ≤ q) : 0 ≤ jsRound q :=
  Int.le_floor.mpr (by push_cast; linarith)

lemma jsRound_mono {a b : ℚ} (h : a ≤ b) : jsRound a ≤ jsRound b :=
  Int.floor_le_floor (by linarith)

lemma jsRound_100 : jsRound 100 = 100 := by
  rw [jsRound]
  norm_num

lemma natDivCast_mono {a b : ℕ} (d : ℕ) (h : a ≤ b) :
    (a : ℚ) / (d : ℚ) ≤ (b : ℚ) / (d : ℚ) := by
  rw [div_eq_mul_inv, div_eq_mul_inv]
  exact mul_le_mul_of_nonneg_right (by exact_mod_cast h) (by positivity)

lemma progressAt_nonneg (cfg : BgmSetup) (n : ℕ) (st : ExportState) :
    0 ≤ progressAt cfg n st := by
  unfold progressAt
  split <;> exact jsRound_nonneg _ (le_min (by norm_num) (by positivity))

lemma progressAt_le_100 (cfg : BgmSetup) (n : ℕ) (st : ExportState) :
    progressAt cfg n st ≤ 100 := by
  unfold progressAt
  split <;> exact le_trans (jsRound_mono (min_le_left _ _)) (le_of_eq jsRound_100)

lemma progressAt_mono (cfg : BgmSetup) (n : ℕ) {st t : ExportState}
    (ha : st.acc ≤ t.acc) (hi : st.idx ≤ t.idx) :
    progressAt cfg n st ≤ progressAt cfg n t := by
  unfold progressAt
  split
  · exact jsRound_mono (min_le_min le_rfl
      (mul_le_mul_of_nonneg_right (natDivCast_mono _ ha) (by norm_num)))
  · exact jsRound_mono (min_le_min le_rfl
      (mul_le_mul_of_nonneg_right (natDivCast_mono _ hi) (by norm_num)))

lemma stepSegment_acc_le (cfg : BgmSetup) (segs : List ℕ) (ev : SegEvent)
    (st : ExportState) : st.acc ≤ (stepSegment cfg segs ev st).acc := by
  cases ev <;> simp [stepSegment]

/-- Invariant carried by the progress stream: the emitted values are
pairwise monotone, inside 0–100, and all dominated by the progress of the
current state. -/
def ProgInv (cfg : BgmSetup) (n : ℕ) (st : ExportState) : Prop :=
  st.progressLog.Pairwise (· ≤ ·) ∧
  (∀ p ∈ st.progressLog, 0 ≤ p ∧ p ≤ 100) ∧
  (∀ p ∈ st.progressLog, p ≤ progressAt cfg n st)

lemma stepSegment_ProgInv (cfg : BgmSetup) (segs : List ℕ) (ev : SegEvent)
    (st : ExportState) (h : ProgInv cfg segs.length st) :
    ProgInv cfg segs.length (stepSegment cfg segs ev st) := by
  obtain ⟨h1, h2, h3⟩ := h
  have hmono : progressAt cfg segs.length st ≤
      progressAt cfg segs.length (stepSegment cfg segs ev st) :=
    progressAt_mono cfg segs.length (stepSegment_acc_le cfg segs ev st)
      (by rw [stepSegment_idx]; omega)
  refine ⟨?_, ?_, ?_⟩ <;> rw [stepSegment_log]
  · rw [List.pairwise_append]
    refine ⟨h1, List.pairwise_singleton _ _, ?_⟩
    intro a ha b hb
    simp only [List.mem_singleton] at hb
    subst hb
    exact h3 a ha
  · intro p hp
    rcases List.mem_append.mp hp with hp | hp
    · exact h2 p hp
    · simp only [List.mem_singleton] at hp; subst hp
      exact ⟨progressAt_nonneg _ _ _, progressAt_le_100 _ _ _⟩
  · intro p hp
    rcases List.mem_append.mp hp with hp | hp
    · exact le_trans (h3 p hp) hmono
    · simp only [List.mem_singleton] at hp; subst hp
      exact hmono

lemma runLoop_ProgInv (cfg : BgmSetup) (segs : List ℕ) (events : ℕ → SegEvent) :
    ∀ (fuel iter : ℕ) (st st' : ExportState), ProgInv cfg segs.length st →
      runLoop cfg segs events fuel iter st = some st' →
      ProgInv cfg segs.length st' := by
  intro fuel
  induction fuel with
  | zero => intro iter st st' _ h; simp [runLoop] at h
  | succ fuel ih =>
      intro iter st st' hinv h
      rw [runLoop] at h
      split at h
      · cases h; exact hinv
      · exact ih _ _ _ (stepSegment_ProgInv cfg segs _ st hinv) h

/-- In a track-less run the progress stream appended by the loop is exactly
the per-index series `round(min(100, i/N·100))` for the indices the loop
still visits. -/
lemma runLoop_noTrack_log (segs : List ℕ) (events : ℕ → SegEvent) :
    ∀ (fuel iter : ℕ) (st st' : ExportState), st.idx ≤ segs.length →
      runLoop .noTrack segs events fuel iter st = some st' →
      st'.progressLog = st.progressLog ++
        (List.range' st.idx (segs.length - st.idx)).map
          (fun i : ℕ => jsRound (min 100 ((i : ℚ) / (segs.length : ℚ) * 100))) := by
  intro fuel
  induction fuel with
  | zero => intro iter st st' _ h; simp [runLoop] at h
  | succ fuel ih =>
      intro iter st st' hle h
      rw [runLoop] at h
      split at h
      · cases h
        rename_i hfin
        have hge : segs.length ≤ st.idx := by
          simpa [exportFinished, bgmAttached] using hfin
        have h0 : segs.length - st.idx = 0 := by omega
        simp [h0]
      · rename_i hfin
        have hidx : ¬ segs.length ≤ st.idx := by
          simpa [exportFinished, bgmAttached] using hfin
        have h2 := ih (iter + 1) (stepSegment .noTrack segs (events iter) st) st'
          (by rw [stepSegment_idx]; omega) h
        rw [h2, stepSegment_log, stepSegment_idx]
        have hn : segs.length - st.idx = (segs.length - (st.idx + 1)) + 1 := by
          omega
        rw [hn, List.range'_succ, List.map_cons]
        have hpr : progressAt .noTrack segs.length st =
            jsRound (min 100 ((st.idx : ℚ) / (segs.length : ℚ) * 100)) := by
          simp [progressAt, bgmAttached]
        rw [hpr]
        simp

/-- C5 amended: every export job emits integer progress values in 0–100 that
are monotone non-decreasing in emission order; but for a track-less job over
`N ≥ 1` segments the *final* emitted value is `round(min(100, (N−1)/N·100))`
— the loop reports progress before each segment and never emits 100 (the
counterexample shows 50 for `N = 2`). -/
theorem C5_amended (cfg : BgmSetup) (segs : List ℕ) (events : ℕ → SegEvent)
    (fuel : ℕ) (st : ExportState) (h : runExport cfg segs events fuel = some st) :
    st.progressLog.Pairwise (· ≤ ·) ∧
    (∀ p ∈ st.progressLog, 0 ≤ p ∧ p ≤ 100) ∧
    (cfg = .noTrack → 1 ≤ segs.length →
      st.progressLog.getLast? = some (jsRound (min 100
        (((segs.length : ℚ) - 1) / (segs.length : ℚ) * 100)))) := by
  have hinv : ProgInv cfg segs.length ⟨0, 0, 0, [], [0]⟩ := by
    refine ⟨List.pairwise_singleton _ _, ?_, ?_⟩
    · intro p hp
      simp only [List.mem_singleton] at hp
      subst hp
      exact ⟨le_refl 0, by norm_num⟩
    · intro p hp
      simp only [List.mem_singleton] at hp
      subst hp
      exact progressAt_nonneg _ _ _
  obtain ⟨h1, h2, _⟩ := runLoop_ProgInv cfg segs events fuel 0 _ st hinv h
  refine ⟨h1, h2, ?_⟩
  rintro rfl hn
  have hlog := runLoop_noTrack_log segs events fuel 0 _ st (Nat.zero_le _) h
  obtain ⟨m, hm⟩ : ∃ m, segs.length = m + 1 := ⟨segs.length - 1, by omega⟩
  rw [hlog]
  simp only [Nat.sub_zero]
  rw [← List.range_eq_range', hm, List.range_succ, List.map_append,
    List.map_singleton, ← List.append_assoc, List.getLast?_concat]
  congr 2
  push_cast
  ring_nf

/-- C5 counterexample: a clean two-segment track-less export (both segments
play, no errors).  The progress stream is `[0, 0, 50]`: the final reported
progress is 50, not 100. -/
theorem C5_counterexample :
    (runExport .noTrack [100, 100] (fun _ => .plays) 3).map
        (fun st => st.progressLog.getLast?) = some (some 50) ∧
    (runExport .noTrack [100, 100] (fun _ => .plays) 3).map
        (fun st => st.progressLog.getLast?) ≠ some (some 100) := by
  have hv : (runExport .noTrack [100, 100] (fun _ => .plays) 3).map
      (fun st => st.progressLog.getLast?) = some (some 50) := by
    norm_num [runExport, runLoop, stepSegment, progressAt, exportFinished,
      jsRound, totalDuration, bgmAttached]
  refine ⟨hv, ?_⟩
  rw [hv]
  intro hcon
  simp at hcon

/-- C5 witness: the two-segment track-less run has a monotone progress stream
whose last value is the amended formula's value. -/
theorem C5_witness :
    ([0, 0, 50] : List ℤ).Pairwise (· ≤ ·) ∧
    (⟨2, 200, 200, [⟨0, 100, false⟩, ⟨1, 100, false⟩], [0, 0, 50]⟩ :
        ExportState).progressLog.getLast? = some (jsRound (min 100
      ((([100, 100] : List ℕ).length - 1 : ℚ) /
        (([100, 100] : List ℕ).length : ℚ) * 100))) := by
  have h := C5_amended .noTrack [100, 100] (fun _ => .plays) 3
    ⟨2, 200, 200, [⟨0, 100, false⟩, ⟨1, 100, false⟩], [0, 0, 50]⟩ (by
      norm_num [runExport, runLoop, stepSegment, progressAt, exportFinished,
        jsRound, totalDuration, bgmAttached])
  exact ⟨h.1, h.2.2 rfl (by norm_num)⟩

/-! ## Claim C6 -/

/-- C6: whatever the configuration and the per-segment host events were, a
completed export run is fatal exactly when nothing was ever captured, and then
it fails with the explicit no-data error of Main.tsx line 639; any run that
captured data finalizes successfully, so segment-level timeouts and playback
errors are never fatal by themselves. -/
theorem C6_theorem (cfg : BgmSetup) (segs : List ℕ) (events : ℕ → SegEvent)
    (fuel : ℕ) (st : ExportState)
    (_ : runExport cfg segs events fuel = some st) :
    (st.recorded = 0 →
      finalizeExport st = .error "No video data recorded (chunks empty)") ∧
    (st.recorded ≠ 0 → finalizeExport st = .ok st) := by
  constructor <;> intro hr <;> simp [finalizeExport, hr]

/-- C6 witness: the run whose single segment always times out captures
nothing, and its finalization fails with the no-data error. -/
theorem C6_witness :
    ((⟨1, 0, 0, [], [0, 0]⟩ : ExportState).recorded = 0 →
      finalizeExport ⟨1, 0, 0, [], [0, 0]⟩ =
        .error "No video data recorded (chunks empty)") ∧
    ((⟨1, 0, 0, [], [0, 0]⟩ : ExportState).recorded ≠ 0 →
      finalizeExport ⟨1, 0, 0, [], [0, 0]⟩ = .ok ⟨1, 0, 0, [], [0, 0]⟩) :=
  C6_theorem .noTrack [100] (fun _ => .timeout) 2 ⟨1, 0, 0, [], [0, 0]⟩ (by
    norm_num [runExport, runLoop, stepSegment, progressAt, exportFinished,
      jsRound, totalDuration, bgmAttached])

/-! ## Claim C7 -/

/-- A track-less run always terminates with enough fuel: the index reaches
the segment count after at most one iteration per remaining index. -/
lemma runLoop_noTrack_total (segs : List ℕ) (events : ℕ → SegEvent) :
    ∀ (fuel iter : ℕ) (st : ExportState), segs.length - st.idx < fuel →
      ∃ st', runLoop .noTrack segs events fuel iter st = some st' := by
  intro fuel
  induction fuel with
  | zero => intro iter st h; omega
  | succ fuel ih =>
      intro iter st h
      by_cases hfin : exportFinished .noTrack segs.length st = true
      · exact ⟨st, by rw [runLoop, if_pos hfin]⟩
      · have hidx : ¬ segs.length ≤ st.idx := by
          simpa [exportFinished, bgmAttached] using hfin
        obtain ⟨st', hst'⟩ := ih (iter + 1)
          (stepSegment .noTrack segs (events iter) st)
          (by rw [stepSegment_idx]; omega)
        exact ⟨st', by rw [runLoop, if_neg hfin]; exact hst'⟩

/-- Characterization of a track-less run: each index from the current one up
to the segment count is visited exactly once, the indices whose host event is
a successful play are appended to the played list with the segment's full
natural duration and no cut, and the recorded time grows by exactly those
durations. -/
lemma runLoop_noTrack_run (segs : List ℕ) (events : ℕ → SegEvent) :
    ∀ (fuel : ℕ) (st st' : ExportState), st.idx ≤ segs.length →
      runLoop .noTrack segs events fuel st.idx st = some st' →
      st'.played = st.played ++
        (List.range' st.idx (segs.length - st.idx)).filterMap
          (fun i => if events i = .plays then
            some (⟨i % segs.length, segs.getD (i % segs.length) 0, false⟩ :
              PlayedSeg) else none) ∧
      st'.recorded = st.recorded +
        ((List.range' st.idx (segs.length - st.idx)).filterMap
          (fun i => if events i = .plays then
            some (segs.getD (i % segs.length) 0) else none)).sum := by
  intro fuel
  induction fuel with
  | zero => intro st st' _ h; simp [runLoop] at h
  | succ fuel ih =>
      intro st st' hle h
      rw [runLoop] at h
      split at h
      · cases h
        rename_i hfin
        have hge : segs.length ≤ st.idx := by
          simpa [exportFinished, bgmAttached] using hfin
        have h0 : segs.length - st.idx = 0 := by omega
        simp [h0]
      · rename_i hfin
        have hidx : ¬ segs.length ≤ st.idx := by
          simpa [exportFinished, bgmAttached] using hfin
        have hn : segs.length - st.idx = (segs.length - (st.idx + 1)) + 1 := by
          omega
        rw [hn, List.range'_succ]
        cases hev : events st.idx
        case timeout =>
          have hstep : stepSegment .noTrack segs (events st.idx) st =
              { st with
                progressLog := st.progressLog ++
                  [progressAt .noTrack segs.length st]
                idx := st.idx + 1 } := by
            rw [hev]; rfl
          have h2 := ih (stepSegment .noTrack segs (events st.idx) st) st'
            (by rw [stepSegment_idx]; omega)
            (by rw [stepSegment_idx]; exact h)
          rw [hstep] at h2
          simp only at h2
          rw [h2.1, h2.2]
          simp [List.filterMap_cons, hev]
        case playError =>
          have hstep : stepSegment .noTrack segs (events st.idx) st =
              { st with
                progressLog := st.progressLog ++
                  [progressAt .noTrack segs.length st]
                idx := st.idx + 1 } := by
            rw [hev]; rfl
          have h2 := ih (stepSegment .noTrack segs (events st.idx) st) st'
            (by rw [stepSegment_idx]; omega)
            (by rw [stepSegment_idx]; exact h)
          rw [hstep] at h2
          simp only at h2
          rw [h2.1, h2.2]
          simp [List.filterMap_cons, hev]
        case plays =>
          have hstep : stepSegment .noTrack segs (events st.idx) st =
              { st with
                progressLog := st.progressLog ++
                  [progressAt .noTrack segs.length st]
                idx := st.idx + 1
                acc := st.acc + segs.getD (st.idx % segs.length) 0
                recorded := st.recorded + segs.getD (st.idx % segs.length) 0
                played := st.played ++
                  [⟨st.idx % segs.length,
                    segs.getD (st.idx % segs.length) 0, false⟩] } := by
            rw [hev]
            simp [stepSegment, bgmAttached]
          have h2 := ih (stepSegment .noTrack segs (events st.idx) st) st'
            (by rw [stepSegment_idx]; omega)
            (by rw [stepSegment_idx]; exact h)
          rw [hstep] at h2
          simp only at h2
          rw [h2.1, h2.2]
          simp [List.filterMap_cons, hev]
          omega

/-- The played indices under an event pattern in which exactly the index `k`
fails (everything else plays) are the indices other than `k`, in order. -/
lemma filterMap_skip_map_segIdx (n k : ℕ) (segs : List ℕ)
    (events : ℕ → SegEvent) (hev : ∀ i, events i = .plays ↔ i ≠ k) :
    ∀ l : List ℕ, (∀ i ∈ l, i < n) →
      ((l.filterMap (fun i => if events i = SegEvent.plays then
          some (⟨i % n, segs.getD (i % n) 0, false⟩ : PlayedSeg)
        else none)).map PlayedSeg.segIdx) =
        l.filter (fun j => j != k) := by
  intro l
  induction l with
  | nil => intro _; rfl
  | cons i l ih =>
      intro hmem
      have hrest := ih (fun j hj => hmem j (List.mem_cons_of_mem _ hj))
      by_cases hik : i = k
      · have hne : ¬ (events i = SegEvent.plays) := by
          rw [hev]; simpa using hik
        subst hik
        simp only [List.filterMap_cons, if_neg hne, List.filter_cons,
          bne_self_eq_false, Bool.false_eq_true, if_false]
        exact hrest
      · have hpl : events i = SegEvent.plays := (hev i).mpr hik
        have hin : i < n := hmem i (List.mem_cons_self _ _)
        simp only [List.filterMap_cons, if_pos hpl, List.map_cons,
          List.filter_cons]
        rw [hrest]
        have hbne : (i != k) = true := by simpa using hik
        simp [hbne, Nat.mod_eq_of_lt hin]

/-- C7: if one specific segment index `k` always times out while every other
segment loads and plays, a track-less export with at least two segments, all
of positive duration, and enough fuel still completes: the played segments
are exactly all indices other than `k`, in order, and finalization succeeds
(the job is not failed by the timeouts). -/
theorem C7_theorem (segs : List ℕ) (k fuel : ℕ) (hk : k < segs.length)
    (hN : 2 ≤ segs.length) (hpos : ∀ d ∈ segs, 0 < d)
    (hfuel : segs.length < fuel) :
    (runExport .noTrack segs
        (fun i => if i = k then SegEvent.timeout else .plays) fuel).map
      (fun st => (st.played.map PlayedSeg.segIdx, (finalizeExport st).isOk)) =
      some ((List.range segs.length).filter (fun j => j != k), true) := by
  set events : ℕ → SegEvent := fun i => if i = k then SegEvent.timeout else .plays
    with hev
  obtain ⟨st, hst⟩ := runLoop_noTrack_total segs events fuel 0
    ⟨0, 0, 0, [], [0]⟩ (by simpa using hfuel)
  obtain ⟨hpl, hrec⟩ := runLoop_noTrack_run segs events fuel
    ⟨0, 0, 0, [], [0]⟩ st (Nat.zero_le _) hst
  have hrng : List.range' 0 (segs.length - 0) = List.range segs.length := by
    rw [Nat.sub_zero, List.range_eq_range']
  rw [hrng] at hpl hrec
  have hevk : ∀ i, events i = .plays ↔ i ≠ k := by
    intro i
    by_cases hik : i = k <;> simp [hev, hik]
  have hmap : st.played.map PlayedSeg.segIdx =
      (List.range segs.length).filter (fun j => j != k) := by
    rw [hpl]
    simp only [List.nil_append]
    exact filterMap_skip_map_segIdx segs.length k segs events hevk
      (List.range segs.length) (fun i hi => List.mem_range.mp hi)
  have hrecpos : 0 < st.recorded := by
    rw [hrec]
    have hj : ∃ j, j < segs.length ∧ j ≠ k := by
      rcases Nat.eq_zero_or_pos k with rfl | hk0
      · exact ⟨1, by omega, by omega⟩
      · exact ⟨0, by omega, by omega⟩
    obtain ⟨j, hjn, hjk⟩ := hj
    have hmem : segs.getD (j % segs.length) 0 ∈
        (List.range segs.length).filterMap
          (fun i => if events i = .plays then
            some (segs.getD (i % segs.length) 0) else none) := by
      refine List.mem_filterMap.mpr ⟨j, List.mem_range.mpr hjn, ?_⟩
      simp [(hevk j).mpr hjk]
    have hdpos : 0 < segs.getD (j % segs.length) 0 := by
      have hjn' : j % segs.length < segs.length := Nat.mod_lt _ (by omega)
      have : segs.getD (j % segs.length) 0 = segs[j % segs.length] := by
        rw [List.getD_eq_getElem?_getD, List.getElem?_eq_getElem hjn']
        rfl
      rw [this]
      exact hpos _ (List.getElem_mem hjn')
    have := List.single_le_sum (l := (List.range segs.length).filterMap
        (fun i => if events i = .plays then
          some (segs.getD (i % segs.length) 0) else none))
      (fun x _ => Nat.zero_le x) _ hmem
    omega
  have hne : st.recorded ≠ 0 := by omega
  have hok : finalizeExport st = .ok st := by simp [finalizeExport, hne]
  rw [show runExport .noTrack segs events fuel = some st from hst]
  simp [hmap, hok, Except.isOk, Except.toBool]

/-- C7 witness: a two-segment composition whose first segment always times
out still exports, containing exactly the second segment, and finalizes
successfully. -/
theorem C7_witness :
    (runExport .noTrack [100, 200]
        (fun i => if i = 0 then SegEvent.timeout else .plays) 3).map
      (fun st => (st.played.map PlayedSeg.segIdx, (finalizeExport st).isOk)) =
      some ((List.range 2).filter (fun j => j != 0), true) :=
  C7_theorem [100, 200] 0 3 (by decide) (by decide)
    (by intro d hd; simp at hd; rcases hd with rfl | rfl <;> decide)
    (by decide)

/-! ## Claim C8 -/

/-- The layout and ordering facts of the export overlay draw: the text splits
into lines on explicit breaks, each line gets (an optional stroke followed by)
a fill, in order; the background rectangle — present exactly when `bgColor`
is truthy — is drawn first, with the box `(maxLineWidth + 2·pad) ×
(numLines·lineHeight + 2·pad)` centred at `(x %, y %)` of the surface and no
shadow; every text command carries the configured shadow; and the fills sit
at `boxTop + pad + lineHeight/2 + i·lineHeight` with
`lineHeight = fontSize × 1.2`. -/
def OverlayDrawClaim (o : OverlayConfig) (measure : String → ℚ)
    (cw ch : ℚ) : Prop :=
  ((drawOverlay o measure cw ch).filterMap glyphTag =
    (o.text.splitOn "\n").flatMap (fun l =>
      (if 0 < o.strokeWidth.getD 0 then [(true, l)] else []) ++ [(false, l)])) ∧
  ((drawOverlay o measure cw ch).countP isRectOp =
    if truthyS o.bgColor then 1 else 0) ∧
  (truthyS o.bgColor = true → (drawOverlay o measure cw ch).head? =
    some (.rect (o.bgColor.getD "")
      (o.x / 100 * cw -
        (measuredMaxWidth measure (o.text.splitOn "\n") +
          o.bgPadding.getD 0 * 2) / 2)
      (o.y / 100 * ch -
        (((o.text.splitOn "\n").length : ℚ) * (o.fontSize * (12 / 10 : ℚ)) +
          o.bgPadding.getD 0 * 2) / 2)
      (measuredMaxWidth measure (o.text.splitOn "\n") + o.bgPadding.getD 0 * 2)
      (((o.text.splitOn "\n").length : ℚ) * (o.fontSize * (12 / 10 : ℚ)) +
        o.bgPadding.getD 0 * 2)
      none)) ∧
  (∀ op ∈ drawOverlay o measure cw ch, isRectOp op = true →
    opShadow op = none) ∧
  (∀ op ∈ drawOverlay o measure cw ch, isRectOp op = false →
    opShadow op = exportShadow o) ∧
  ((drawOverlay o measure cw ch).filterMap fillY =
    (List.range (o.text.splitOn "\n").length).map (fun i : ℕ =>
      (o.y / 100 * ch -
        (((o.text.splitOn "\n").length : ℚ) * (o.fontSize * (12 / 10 : ℚ)) +
          o.bgPadding.getD 0 * 2) / 2) +
        o.bgPadding.getD 0 + (o.fontSize * (12 / 10 : ℚ)) / 2 +
        i * (o.fontSize * (12 / 10 : ℚ))))

/-- C8: for every overlay the export surface actually draws — the editor
always stores a present `strokeWidth` and a present, nonempty `strokeColor`,
so those are hypotheses — the overlay draw has exactly the claimed layout:
lines split on explicit breaks, background rectangle first (present iff
`bgColor` is set) with the claimed box and no shadow, per line a stroke
exactly when `strokeWidth > 0` followed by the filled glyphs, the configured
shadow stamped on all text commands only, and line baselines spaced by
`fontSize × 1.2`. -/
theorem C8_theorem (o : OverlayConfig) (measure : String → ℚ) (cw ch : ℚ)
    (w : ℚ) (hw : o.strokeWidth = some w) (hw0 : 0 ≤ w)
    (hsc : truthyS o.strokeColor = true) :
    OverlayDrawClaim o measure cw ch := by
  have hstroke : exportStrokeActive o = decide (0 < o.strokeWidth.getD 0) := by
    unfold exportStrokeActive
    rw [hsc, Bool.and_true, hw]
    rcases eq_or_lt_of_le hw0 with h0 | h0
    · simp [truthyQ, ← h0]
    · simp [truthyQ, h0, h0.ne']
  refine ⟨?_, ?_, ?_, ?_, ?_, ?_⟩
  · rw [drawOverlay_decomp, List.filterMap_append, overlayLineOps_glyphTag,
      hstroke]
    by_cases hb : truthyS o.bgColor <;>
      by_cases h0 : 0 < o.strokeWidth.getD 0 <;>
      simp [hb, h0, glyphTag]
  · rw [drawOverlay_decomp, List.countP_append]
    have htext : (overlayLineOps o (exportShadow o) (o.x / 100 * cw)
        (o.fontSize * (12 / 10 : ℚ)) (o.text.splitOn "\n")
        ((o.y / 100 * ch -
            (((o.text.splitOn "\n").length : ℚ) * (o.fontSize * (12 / 10 : ℚ)) +
              o.bgPadding.getD 0 * 2) / 2) +
          o.bgPadding.getD 0 + (o.fontSize * (12 / 10 : ℚ)) / 2)).countP
        isRectOp = 0 := by
      rw [List.countP_eq_zero]
      intro op hop
      simp [(overlayLineOps_shape o (exportShadow o) _ _ _ _ op hop).1]
    rw [htext]
    by_cases hb : truthyS o.bgColor <;> simp [hb, isRectOp]
  · intro hb
    rw [drawOverlay_decomp, if_pos hb]
    rfl
  · intro op hop hrect
    rw [drawOverlay_decomp] at hop
    rcases List.mem_append.mp hop with hop | hop
    · by_cases hb : truthyS o.bgColor <;> simp [hb] at hop
      subst hop
      rfl
    · exact absurd (overlayLineOps_shape o (exportShadow o) _ _ _ _ op hop).1
        (by simp [hrect])
  · intro op hop hrect
    rw [drawOverlay_decomp] at hop
    rcases List.mem_append.mp hop with hop | hop
    · by_cases hb : truthyS o.bgColor <;> simp [hb] at hop
      subst hop
      simp [isRectOp] at hrect
    · exact (overlayLineOps_shape o (exportShadow o) _ _ _ _ op hop).2.1
  · rw [drawOverlay_decomp, List.filterMap_append, overlayLineOps_fillY]
    by_cases hb : truthyS o.bgColor <;> simp [hb, fillY]

/-- C8 witness: a two-line overlay with stroke width 5, a background colour
and padding 20, measured by a fixed-width oracle, drawn on the 720 × 1280
export canvas. -/
theorem C8_witness :
    OverlayDrawClaim ⟨"ab\ncd", 50, 50, 40, "#fff", some "#000", some 5,
      none, none, some "#333", some 20⟩ (fun _ => 10) 720 1280 :=
  C8_theorem _ _ 720 1280 5 rfl (by norm_num) (by decide)

/-! ## Claim C9 -/

/-- After `k` completed segments (`k` strictly below `n`) the track-less
preview machine is playing segment `k`, on slot A for even `k` and slot B for
odd `k`. -/
lemma handleVideoEnded_iterate (n : ℕ) :
    ∀ k, k < n → (handleVideoEnded false n)^[k] ⟨0, 1, true⟩ =
      ⟨k, if k % 2 = 0 then 1 else 2, true⟩ := by
  intro k
  induction k with
  | zero => intro _; rfl
  | succ k ih =>
      intro hk
      rw [Function.iterate_succ_apply', ih (by omega)]
      have hlt : ¬ n ≤ k + 1 := by omega
      rcases Nat.even_or_odd k with he | ho
      · have h2 : k % 2 = 0 := Nat.even_iff.mp he
        have h2' : (k + 1) % 2 = 1 := by omega
        simp [handleVideoEnded, hlt, h2, h2']
      · have h2 : k % 2 = 1 := Nat.odd_iff.mp ho
        have h2' : (k + 1) % 2 = 0 := by omega
        simp [handleVideoEnded, hlt, h2, h2']

/-- C9: in the track-less preview machine with `n ≥ 1` segments every
non-terminal completion advances `currentIndex` by exactly one, and after all
`n` segments complete from the initial playing state the machine is idle at
index 0 with slot A (player 1) active. -/
theorem C9_theorem (n : ℕ) (hn : 1 ≤ n) :
    (∀ st : PlayerState, st.currentIndex + 1 < n →
      (handleVideoEnded false n st).currentIndex = st.currentIndex + 1) ∧
    (handleVideoEnded false n)^[n] ⟨0, 1, true⟩ = ⟨0, 1, false⟩ := by
  constructor
  · intro st hlt
    have h : ¬ n ≤ st.currentIndex + 1 := by omega
    simp [handleVideoEnded, h]
  · obtain ⟨m, rfl⟩ : ∃ m, n = m + 1 := ⟨n - 1, by omega⟩
    rw [Function.iterate_succ_apply', handleVideoEnded_iterate (m + 1) m (by omega)]
    simp [handleVideoEnded]

/-- C9 witness: for the three-segment track-less composition, the first
completion advances the index to 1, and three completions return the machine
to idle, index 0, slot A. -/
theorem C9_witness :
    (handleVideoEnded false 3 ⟨0, 1, true⟩).currentIndex = 0 + 1 ∧
    (handleVideoEnded false 3)^[3] ⟨0, 1, true⟩ = ⟨0, 1, false⟩ :=
  ⟨(C9_theorem 3 (by decide)).1 ⟨0, 1, true⟩ (by decide),
   (C9_theorem 3 (by decide)).2⟩

/-! ## Claim C10 -/

/-- C10: whenever the preview player renders its video slots at all, both
slots are muted exactly when a background track is attached, and a rendered
track audio element is always accompanied by both slots muted — the preview
never mixes a segment's own audio with the track's. -/
theorem C10_theorem (segments : List VideoFile) (bgm : Option BgmFile)
    (r : RenderedPlayer) (h : seamlessPlayerRender segments bgm = some r) :
    (r.slot1Muted = bgm.isSome ∧ r.slot2Muted = bgm.isSome) ∧
    (r.bgmAudioPresent = true → r.slot1Muted = true ∧ r.slot2Muted = true) ∧
    (bgm = none → r.slot1Muted = false ∧ r.slot2Muted = false) := by
  by_cases hseg : segments.isEmpty
  · simp [seamlessPlayerRender, hseg] at h
  · simp only [seamlessPlayerRender, hseg, Bool.false_eq_true, if_false,
      Option.some.injEq] at h
    subst h
    refine ⟨⟨rfl, rfl⟩, fun hp => ⟨hp, hp⟩, ?_⟩
    rintro rfl
    exact ⟨rfl, rfl⟩

/-- C10 witness: with one segment and a track attached the render has both
slots muted. -/
theorem C10_witness :
    ((true : Bool) = (some (⟨"b", "b", "u", 100⟩ : BgmFile)).isSome ∧
      (true : Bool) = (some (⟨"b", "b", "u", 100⟩ : BgmFile)).isSome) ∧
    ((true : Bool) = true → (true : Bool) = true ∧ (true : Bool) = true) ∧
    (some (⟨"b", "b", "u", 100⟩ : BgmFile) = none →
      (true : Bool) = false ∧ (true : Bool) = false) := by
  have h := C10_theorem [⟨"a", "a", "u", "video/mp4", none⟩]
    (some ⟨"b", "b", "u", 100⟩) ⟨true, true, true⟩ rfl
  exact h

end MixApp
